import Mathlib

/-!
Verification of the agent framework: the lifecycle contract (`src/core/agent.py`),
the reactive agent (`src/agents/reactive_agent.py`) and the Q-learning agent
(`src/agents/qlearning_agent.py`), shallowly embedded in Lean.  Python floats are
modelled as rationals, dictionaries as insertion-ordered association lists
(including the `defaultdict` behaviour of materialising a missing key with value
0.0 on read), Python truthiness of `Optional[str]` fields explicitly, and the
global random source (`random.random` / `random.choice`) as an explicit stream.
-/

namespace AgentPoc

/-- A scalar Python value appearing in observation payloads: a string or an int. -/
inductive PyLeaf where
  | pstr : String → PyLeaf
  | pint : Int → PyLeaf
deriving DecidableEq, Repr

/-- An observation payload: a scalar, or a dictionary with string keys
(insertion-ordered list of key/value pairs; a real Python dict never holds
the same key twice). -/
inductive PyVal where
  | leaf : PyLeaf → PyVal
  | dict : List (String × PyLeaf) → PyVal
deriving DecidableEq, Repr

/-- The single-quote character used by Python `repr` of strings. -/
def pyQuote : String := String.singleton (Char.ofNat 39)

/-- Python `repr` of a scalar: strings are quoted, ints are printed. -/
def reprLeaf : PyLeaf → String
  | .pstr s => pyQuote ++ s ++ pyQuote
  | .pint n => toString n

/-- Python `str` of a scalar: `str` of a string is the string itself. -/
def strLeaf : PyLeaf → String
  | .pstr s => s
  | .pint n => toString n

/-- Python `str` of one `(key, value)` item tuple. -/
def strItem (p : String × PyLeaf) : String :=
  "(" ++ pyQuote ++ p.1 ++ pyQuote ++ ", " ++ reprLeaf p.2 ++ ")"

/-- Python `str` of a list of item tuples, e.g. `[('x', 1), ('y', 2)]`. -/
def strItemList (l : List (String × PyLeaf)) : String :=
  "[" ++ String.intercalate ", " (l.map strItem) ++ "]"

/-- Python `str` of a whole payload; a dict renders in insertion order,
e.g. `\x7b'x': 1\x7d`. -/
def strPyVal : PyVal → String
  | .leaf v => strLeaf v
  | .dict l =>
      "\x7b" ++
        String.intercalate ", "
          (l.map fun p => pyQuote ++ p.1 ++ pyQuote ++ ": " ++ reprLeaf p.2) ++
      "\x7d"

/-- Python `dict.get`: value of the first occurrence of the key, if any. -/
def dictGet (l : List (String × PyLeaf)) (k : String) : Option PyLeaf :=
  (l.find? fun p => p.1 = k).map Prod.snd

/-- `Observation` dataclass from `src/core/agent.py`. -/
structure Observation where
  data : PyVal
  timestamp : ℚ
  metadata : Option PyVal := none

/-- `Action` dataclass from `src/core/agent.py`. -/
structure Action where
  name : String
  parameters : List (String × PyLeaf)
  confidence : ℚ := 1
deriving DecidableEq, Repr

/-- `AgentState` enumeration from `src/core/agent.py`. -/
inductive AgentState where
  | IDLE | THINKING | ACTING | LEARNING | STOPPED
deriving DecidableEq, Repr

/-- Python truthiness of an `Optional[str]`: `None` and `""` are falsy. -/
def truthyOpt : Option String → Bool
  | none => false
  | some s => s ≠ ""

/-! ### The Q-table: an insertion-ordered `defaultdict(float)` -/

/-- The Q-table maps `(state, action)` keys to rationals; modelled as the
insertion-ordered entry list of the Python dict. -/
abbrev QTable : Type := List ((String × String) × ℚ)

/-- Plain dict lookup (no materialisation). -/
def qfind : QTable → (String × String) → Option ℚ
  | [], _ => none
  | e :: t, k => if e.1 = k then some e.2 else qfind t k

/-- Lookup with the `defaultdict` default `0.0`, without mutating. -/
def lookupD (t : QTable) (k : String × String) : ℚ :=
  (qfind t k).getD 0

/-- `defaultdict.__getitem__`: return the stored value, or materialise the key
with value `0.0` (appended, preserving insertion order) and return `0.0`. -/
def qget (t : QTable) (k : String × String) : ℚ × QTable :=
  match qfind t k with
  | some v => (v, t)
  | none => (0, t ++ [(k, 0)])

/-- `dict.__setitem__`: overwrite in place if present, else append. -/
def qset (t : QTable) (k : String × String) (v : ℚ) : QTable :=
  if (qfind t k).isSome then
    List.map (fun e => if e.1 = k then (k, v) else e) t
  else
    t ++ [(k, v)]

/-- Sequence of materialising reads, left to right, threading the table. -/
def qgetList (t : QTable) : List (String × String) → List ℚ × QTable
  | [] => ([], t)
  | k :: ks =>
      let p := qget t k
      let rest := qgetList p.2 ks
      (p.1 :: rest.1, rest.2)

theorem qfind_append (t1 t2 : QTable) (k : String × String) :
    qfind (t1 ++ t2) k =
      match qfind t1 k with
      | some v => some v
      | none => qfind t2 k := by
  induction t1 with
  | nil => simp [qfind]
  | cons e t ih =>
    by_cases he : e.1 = k
    · simp [qfind, he]
    · simp [qfind, he, ih]

theorem lookupD_qget (t : QTable) (k k' : String × String) :
    lookupD (qget t k).2 k' = lookupD t k' := by
  unfold qget
  cases h : qfind t k with
  | some v => rfl
  | none =>
    unfold lookupD
    rw [qfind_append]
    cases h' : qfind t k' with
    | some v => rfl
    | none =>
      by_cases hk : k = k'
      · simp [qfind, hk]
      · simp [qfind, hk]

theorem qget_fst (t : QTable) (k : String × String) :
    (qget t k).1 = lookupD t k := by
  unfold qget lookupD
  cases h : qfind t k <;> simp [h]

theorem qgetList_fst (t : QTable) (ks : List (String × String)) :
    (qgetList t ks).1 = ks.map (lookupD t) := by
  induction ks generalizing t with
  | nil => rfl
  | cons k ks ih =>
    simp only [qgetList, List.map]
    rw [qget_fst t k, ih]
    refine congrArg (lookupD t k :: ·) ?_
    apply List.map_congr_left
    intro k' _
    exact lookupD_qget t k k'

theorem lookupD_qgetList (t : QTable) (ks : List (String × String))
    (k' : String × String) : lookupD (qgetList t ks).2 k' = lookupD t k' := by
  induction ks generalizing t with
  | nil => rfl
  | cons k ks ih =>
    simp only [qgetList]
    rw [ih, lookupD_qget]

theorem lookupD_qset (t : QTable) (k : String × String) (v : ℚ) :
    lookupD (qset t k v) k = v := by
  unfold qset
  cases h : (qfind t k).isSome with
  | true =>
    simp only [if_pos rfl, h, if_true]
    unfold lookupD
    induction t with
    | nil => simp [qfind] at h
    | cons e t ih =>
      by_cases he : e.1 = k
      · simp [qfind, he]
      · simp only [List.map, if_neg he, qfind, he, if_false]
        exact ih (by simpa [qfind, he] using h)
  | false =>
    simp only [h, Bool.false_eq_true, if_false]
    unfold lookupD
    rw [qfind_append]
    cases h' : qfind t k with
    | some w => simp [h'] at h
    | none => simp [qfind]

/-! ### The random source (`random.random` and `random.choice`) -/

/-- Explicit model of Python's global random source: a stream of floats in
`[0, 1)` for `random.random()` and a stream of indices for `random.choice`,
with cursors. -/
structure RSrc where
  floats : Nat → ℚ
  choices : Nat → Nat
  fi : Nat := 0
  ci : Nat := 0

/-- `random.random()`: yield the next float from the stream. -/
def nextFloat (s : RSrc) : ℚ × RSrc :=
  (s.floats s.fi, { s with fi := s.fi + 1 })

/-- `random.choice(seq)`: uniformly pick an element of a nonempty sequence;
raises (`none`) on an empty one.  Uniformity is modelled by a free index from
the stream, reduced mod the length. -/
def pyChoice (l : List α) (s : RSrc) : Option (α × RSrc) :=
  if h : l.length = 0 then none
  else
    some (l.get ⟨s.choices s.ci % l.length, Nat.mod_lt _ (Nat.pos_of_ne_zero h)⟩,
          { s with ci := s.ci + 1 })

theorem pyChoice_mem {l : List α} {s : RSrc} {x : α} {s' : RSrc}
    (h : pyChoice l s = some (x, s')) : x ∈ l := by
  unfold pyChoice at h
  split at h
  · exact absurd h (by simp)
  · have h' := Option.some.inj h
    have hx : l.get _ = x := congrArg Prod.fst h'
    exact hx ▸ List.get_mem l _ _

theorem pyChoice_isSome {l : List α} (hl : l ≠ []) (s : RSrc) :
    ∃ x s', pyChoice l s = some (x, s') := by
  unfold pyChoice
  rw [dif_neg (by simpa using hl)]
  exact ⟨_, _, rfl⟩

/-- Python `max` over a list (`max(seq)`): `none` models the raise on `[]`. -/
def pymax : List ℚ → Option ℚ
  | [] => none
  | x :: xs => some (xs.foldl max x)

/-- Python `min` over a list. -/
def pymin : List ℚ → Option ℚ
  | [] => none
  | x :: xs => some (xs.foldl min x)

theorem foldl_max_mem (x : ℚ) (xs : List ℚ) :
    xs.foldl max x = x ∨ xs.foldl max x ∈ xs := by
  induction xs generalizing x with
  | nil => left; rfl
  | cons y ys ih =>
    rcases ih (max x y) with h | h
    · rcases max_choice x y with hm | hm
      · left; rw [List.foldl, h, hm]
      · right; rw [List.foldl, h, hm]; exact List.mem_cons_self _ _
    · right; exact List.mem_cons_of_mem _ h

theorem le_foldl_max (x : ℚ) (xs : List ℚ) :
    x ≤ xs.foldl max x ∧ ∀ y ∈ xs, y ≤ xs.foldl max x := by
  induction xs generalizing x with
  | nil => exact ⟨le_refl x, by simp⟩
  | cons y ys ih =>
    obtain ⟨h1, h2⟩ := ih (max x y)
    simp only [List.foldl]
    refine ⟨le_trans (le_max_left x y) h1, ?_⟩
    intro z hz
    rcases List.mem_cons.mp hz with hz | hz
    · rw [hz]; exact le_trans (le_max_right x y) h1
    · exact h2 z hz

theorem pymax_spec {l : List ℚ} {m : ℚ} (h : pymax l = some m) :
    m ∈ l ∧ ∀ y ∈ l, y ≤ m := by
  cases l with
  | nil => simp [pymax] at h
  | cons x xs =>
    unfold pymax at h
    have hm := (Option.some.injEq _ _).mp h
    subst hm
    constructor
    · rcases foldl_max_mem x xs with h' | h'
      · rw [h']; exact List.mem_cons_self _ _
      · exact List.mem_cons_of_mem _ h'
    · intro y hy
      rcases List.mem_cons.mp hy with hy | hy
      · exact hy ▸ (le_foldl_max x xs).1
      · exact (le_foldl_max x xs).2 y hy

theorem pymax_eq_of_mem_of_le {l : List ℚ} {m : ℚ}
    (hmem : m ∈ l) (hub : ∀ y ∈ l, y ≤ m) : pymax l = some m := by
  cases l with
  | nil => simp at hmem
  | cons x xs =>
    unfold pymax
    refine congrArg some (le_antisymm ?_ ?_)
    · rcases foldl_max_mem x xs with h' | h'
      · rw [h']; exact hub x (List.mem_cons_self _ _)
      · exact hub _ (List.mem_cons_of_mem _ h')
    · rcases List.mem_cons.mp hmem with hm | hm
      · exact hm ▸ (le_foldl_max x xs).1
      · exact (le_foldl_max x xs).2 m hm

theorem foldl_min_le (x : ℚ) (xs : List ℚ) :
    xs.foldl min x ≤ x ∧ ∀ y ∈ xs, xs.foldl min x ≤ y := by
  induction xs generalizing x with
  | nil => exact ⟨le_refl x, by simp⟩
  | cons y ys ih =>
    obtain ⟨h1, h2⟩ := ih (min x y)
    simp only [List.foldl]
    refine ⟨le_trans h1 (min_le_left x y), ?_⟩
    intro z hz
    rcases List.mem_cons.mp hz with hz | hz
    · rw [hz]; exact le_trans h1 (min_le_right x y)
    · exact h2 z hz

theorem pymin_le {l : List ℚ} {m : ℚ} (h : pymin l = some m) :
    ∀ y ∈ l, m ≤ y := by
  cases l with
  | nil => simp [pymin] at h
  | cons x xs =>
    unfold pymin at h
    have hm := Option.some.inj h
    subst hm
    intro y hy
    rcases List.mem_cons.mp hy with hy | hy
    · rw [hy]; exact (foldl_min_le x xs).1
    · exact (foldl_min_le x xs).2 y hy

theorem pymin_isSome {l : List ℚ} (h : l ≠ []) : ∃ m, pymin l = some m := by
  cases l with
  | nil => exact absurd rfl h
  | cons x xs => exact ⟨_, rfl⟩

/-! ### State canonicalisation (`QLearningAgent._state_from_observation`) -/

/-- Comparison used by Python `sorted` on dict items: dict keys are unique, so
only the first tuple component is ever compared. -/
def keyLe (p q : String × PyLeaf) : Prop := p.1 ≤ q.1

instance : DecidableRel keyLe := fun p q => inferInstanceAs (Decidable (p.1 ≤ q.1))

instance : IsTotal (String × PyLeaf) keyLe := ⟨fun p q => le_total p.1 q.1⟩

instance : IsTrans (String × PyLeaf) keyLe := ⟨fun _ _ _ h h' => le_trans h h'⟩

/-- Strict version of `keyLe`, used to show sorted item lists are unique. -/
def keyLt (p q : String × PyLeaf) : Prop := p.1 < q.1

instance : IsAntisymm (String × PyLeaf) keyLt :=
  ⟨fun _ _ h h' => absurd h' (lt_asymm h)⟩

/-- Python `sorted(d.items())`. -/
def sortItems (l : List (String × PyLeaf)) : List (String × PyLeaf) :=
  List.insertionSort keyLe l

/-- `QLearningAgent._state_from_observation`: a dict payload canonicalises to
`str(sorted(data.items()))`, any other payload to `str(data)`. -/
def stateFromObservation (o : Observation) : String :=
  match o.data with
  | .dict l => strItemList (sortItems l)
  | .leaf v => strLeaf v

/-! ### The Q-learning agent (`src/agents/qlearning_agent.py`) -/

/-- One experience record appended by `QLearningAgent.learn`. -/
structure Experience where
  state : String
  action : String
  reward : ℚ
  next_state : Option String
  q_value : ℚ
deriving DecidableEq, Repr

/-- Full state of a `QLearningAgent` instance: the `BaseAgent` fields, the
`LearningAgent` fields and its own fields. -/
structure QLearningAgent where
  name : String
  state : AgentState
  observations : List Observation
  actions_taken : List Action
  learning_rate : ℚ
  experience : List Experience
  available_actions : List String
  discount_factor : ℚ
  exploration_rate : ℚ
  q_table : QTable
  current_state : Option String
  last_state : Option String
  last_action : Option String
  last_reward : ℚ

/-- `QLearningAgent.__init__` (with the superclass constructors inlined). -/
def initQLA (name : String) (actions : List String) (learning_rate : ℚ := 1/10)
    (discount_factor : ℚ := 9/10) (exploration_rate : ℚ := 1/10) :
    QLearningAgent :=
  { name := name
    state := .IDLE
    observations := []
    actions_taken := []
    learning_rate := learning_rate
    experience := []
    available_actions := actions
    discount_factor := discount_factor
    exploration_rate := exploration_rate
    q_table := []
    current_state := none
    last_state := none
    last_action := none
    last_reward := 0 }

/-- `QLearningAgent.perceive`. -/
def perceiveQ (qa : QLearningAgent) (o : Observation) : QLearningAgent :=
  { qa with
    observations := qa.observations ++ [o]
    last_state := qa.current_state
    current_state := some (stateFromObservation o) }

/-- `QLearningAgent._get_best_action`: reads the (materialising) Q-values of
every configured action, then picks uniformly among the maximisers — or among
all actions when all values are equal.  `none` models the exceptions Python
would raise for an empty action set. -/
def getBestAction (qa : QLearningAgent) (state : String) (src : RSrc) :
    Option (String × QTable × RSrc) :=
  let read := qgetList qa.q_table (qa.available_actions.map fun a => (state, a))
  match pymax read.1, pymin read.1 with
  | some mx, some mn =>
    if mx = mn then
      (pyChoice qa.available_actions src).map fun p => (p.1, read.2, p.2)
    else
      let best :=
        ((qa.available_actions.zip read.1).filter fun p => p.2 = mx).map Prod.fst
      (pyChoice best src).map fun p => (p.1, read.2, p.2)
  | _, _ => none

/-- `QLearningAgent.decide`: epsilon-greedy selection.  The outer `none`
models a raised exception; the inner `none` is Python `return None`. -/
def decideQ (qa : QLearningAgent) (src : RSrc) :
    Option (Option Action × QLearningAgent × RSrc) :=
  match qa.current_state with
  | none => some (none, qa, src)
  | some cs =>
    if cs = "" then some (none, qa, src)
    else
      let p := nextFloat src
      if p.1 < qa.exploration_rate then
        (pyChoice qa.available_actions p.2).map fun q =>
          (some { name := q.1, parameters := [],
                  confidence := 1 - qa.exploration_rate },
           { qa with last_action := some q.1 }, q.2)
      else
        (getBestAction qa cs p.2).map fun q =>
          (some { name := q.1, parameters := [],
                  confidence := 1 - qa.exploration_rate },
           { qa with q_table := q.2.1, last_action := some q.1 }, q.2.2)

/-- `QLearningAgent.learn`: the temporal-difference update.  `some` without
change models the silent no-op return; the outer `none` models the exception
Python `max` would raise on an empty action set. -/
def learnQ (qa : QLearningAgent) (reward : ℚ) : Option QLearningAgent :=
  if truthyOpt qa.last_state = false ∨ truthyOpt qa.last_action = false then
    some qa
  else
    match qa.last_state, qa.last_action with
    | some ls, some la =>
      let p := qget qa.q_table (ls, la)
      let next : Option (ℚ × QTable) :=
        match qa.current_state with
        | some cs =>
          if cs = "" then some (0, p.2)
          else
            let reads := qgetList p.2 (qa.available_actions.map fun a => (cs, a))
            (pymax reads.1).map fun m => (m, reads.2)
        | none => some (0, p.2)
      next.map fun q =>
        let new_q := p.1 + qa.learning_rate *
          (reward + qa.discount_factor * q.1 - p.1)
        { qa with
          q_table := qset q.2 (ls, la) new_q
          experience := qa.experience ++
            [{ state := ls, action := la, reward := reward,
               next_state := qa.current_state, q_value := new_q }] }
    | _, _ => some qa

/-- `BaseAgent.reset`, as inherited by `QLearningAgent`. -/
def resetQ (qa : QLearningAgent) : QLearningAgent :=
  { qa with state := .IDLE, observations := [], actions_taken := [] }

/-! ### The reactive agent (`src/agents/reactive_agent.py`) -/

/-- Full state of a `ReactiveAgent` instance.  Rule bodies are opaque
callables from the payload to an `Action`. -/
structure ReactiveAgent where
  name : String
  state : AgentState
  observations : List Observation
  actions_taken : List Action
  rules : List (String × (PyVal → Action))
  default_action : Option Action
  current_observation : Option Observation

/-- Dict lookup in the rule table. -/
def lookupRule (rs : List (String × (PyVal → Action))) (k : String) :
    Option (PyVal → Action) :=
  (rs.find? fun p => p.1 = k).map Prod.snd

/-- `ReactiveAgent.perceive`. -/
def perceiveR (ra : ReactiveAgent) (o : Observation) : ReactiveAgent :=
  { ra with
    current_observation := some o
    observations := ra.observations ++ [o] }

/-- `ReactiveAgent.decide`: dispatch on the `type` field of a dict payload,
else on the string rendering of the payload, else the default action.  A
non-string `type` value never equals a (string) rule key in Python, so it
falls through. -/
def decideR (ra : ReactiveAgent) : Option Action :=
  match ra.current_observation with
  | none => ra.default_action
  | some o =>
    let fallback :=
      match lookupRule ra.rules (strPyVal o.data) with
      | some f => some (f o.data)
      | none => ra.default_action
    match o.data with
    | .dict l =>
      match dictGet l "type" with
      | some (.pstr s) =>
        match lookupRule ra.rules s with
        | some f => some (f o.data)
        | none => fallback
      | _ => fallback
    | _ => fallback

/-- `BaseAgent.reset`, as inherited by `ReactiveAgent`. -/
def resetR (ra : ReactiveAgent) : ReactiveAgent :=
  { ra with state := .IDLE, observations := [], actions_taken := [] }

/-! ### The generic learning-agent cycle (`LearningAgent.run_cycle_with_feedback`) -/

/-- The four primitive calls a cycle can make, in the order they happen; used
as a ghost trace to state ordering properties. -/
inductive CycleEv where
  | evPerceive | evLearn | evDecide | evAct
deriving DecidableEq, Repr

/-- An arbitrary `LearningAgent` implementation: the four overridable methods,
operating on an opaque inner state `σ` (everything except the base fields that
`run_cycle_with_feedback` itself manipulates) and producing results in `ρ`. -/
structure LOps (σ ρ : Type) where
  perceiveF : σ → Observation → σ
  decideF : σ → σ × Option Action
  actF : σ → Action → σ × ρ
  learnF : σ → ℚ → σ

/-- The base-agent fields touched by the composed cycle. -/
structure LState (σ : Type) where
  inner : σ
  state : AgentState
  actions_taken : List Action

/-- `LearningAgent.run_cycle_with_feedback`, instrumented with a ghost trace
of the primitive calls in execution order: perceive, then learn (only given a
reward), then decide, then act (only given an action), appending the action
taken and finishing `IDLE`. -/
def runCycleWithFeedback (ops : LOps σ ρ) (st : LState σ) (obs : Observation)
    (reward : Option ℚ) : LState σ × Option ρ × List CycleEv :=
  let i1 := ops.perceiveF st.inner obs
  let tr1 := [CycleEv.evPerceive]
  let i2 := match reward with
    | some r => ops.learnF i1 r
    | none => i1
  let tr2 := tr1 ++ (match reward with
    | some _ => [CycleEv.evLearn]
    | none => [])
  let d := ops.decideF i2
  let tr3 := tr2 ++ [CycleEv.evDecide]
  match d.2 with
  | some a =>
    let r := ops.actF d.1 a
    ({ inner := r.1, state := .IDLE,
       actions_taken := st.actions_taken ++ [a] },
     some r.2, tr3 ++ [CycleEv.evAct])
  | none =>
    ({ inner := d.1, state := .IDLE, actions_taken := st.actions_taken },
     none, tr3)

theorem pymax_isSome {l : List ℚ} (h : l ≠ []) : ∃ m, pymax l = some m := by
  cases l with
  | nil => exact absurd rfl h
  | cons x xs => exact ⟨_, rfl⟩

/-! ### Theorems about the claims -/

/-- The spec's `next_max`: the maximum over the configured actions of
`Q[current_state, action]`, and `0.0` when `current_state` is unset (falsy). -/
def specNextMax (qa : QLearningAgent) : ℚ :=
  match qa.current_state with
  | some cs =>
    if cs = "" then 0
    else (pymax (qa.available_actions.map fun b => lookupD qa.q_table (cs, b))).getD 0
  | none => 0

/-- The spec's update formula
`Q_old + learning_rate * (reward + discount_factor * next_max - Q_old)`. -/
def specNewQ (qa : QLearningAgent) (reward : ℚ) (ls la : String) : ℚ :=
  let old_q := lookupD qa.q_table (ls, la)
  old_q + qa.learning_rate * (reward + qa.discount_factor * specNextMax qa - old_q)

/-- Helper: the full behaviour of a successful `learn` call. -/
theorem learn_update_spec (qa : QLearningAgent) (reward : ℚ) (ls la : String)
    (hls : qa.last_state = some ls) (hls' : ls ≠ "")
    (hla : qa.last_action = some la) (hla' : la ≠ "")
    (hact : qa.available_actions ≠ []) :
    ∃ qa', learnQ qa reward = some qa' ∧
      lookupD qa'.q_table (ls, la) = specNewQ qa reward ls la ∧
      qa'.experience = qa.experience ++
        [{ state := ls, action := la, reward := reward,
           next_state := qa.current_state,
           q_value := specNewQ qa reward ls la }] := by
  unfold learnQ
  rw [hls, hla]
  rw [if_neg (by simp [truthyOpt, hls', hla'])]
  cases hcs : qa.current_state with
  | none =>
    dsimp only
    refine ⟨_, rfl, ?_, ?_⟩
    · rw [lookupD_qset]
      simp [specNewQ, specNextMax, hcs, qget_fst]
    · simp [specNewQ, specNextMax, hcs, qget_fst]
  | some cs =>
    dsimp only
    by_cases hcse : cs = ""
    · rw [if_pos hcse]
      refine ⟨_, rfl, ?_, ?_⟩
      · rw [lookupD_qset]
        simp [specNewQ, specNextMax, hcs, hcse, qget_fst]
      · simp [specNewQ, specNextMax, hcs, hcse, qget_fst]
    · rw [if_neg hcse]
      have hkeys : (qgetList (qget qa.q_table (ls, la)).2
          (qa.available_actions.map fun a => (cs, a))).1
          = qa.available_actions.map fun b => lookupD qa.q_table (cs, b) := by
        rw [qgetList_fst, List.map_map]
        apply List.map_congr_left
        intro b _
        exact lookupD_qget qa.q_table (ls, la) (cs, b)
      obtain ⟨m, hm⟩ := pymax_isSome
        (l := qa.available_actions.map fun b => lookupD qa.q_table (cs, b))
        (by simpa using hact)
      rw [hkeys, hm]
      refine ⟨_, rfl, ?_, ?_⟩
      · rw [lookupD_qset]
        simp [specNewQ, specNextMax, hcs, hcse, qget_fst, hm]
      · simp [specNewQ, specNextMax, hcs, hcse, qget_fst, hm]

/-- C1: with `last_state` and `last_action` set, `learn(reward)` replaces
`Q[last_state, last_action]` by
`Q_old + learning_rate * (reward + discount_factor * next_max - Q_old)`, where
`Q_old` defaults to `0.0` and `next_max` is the maximum over the configured
actions of `Q[current_state, ·]` (`0.0` when `current_state` is unset, i.e.
falsy), and appends exactly one experience record capturing
(prior state, action, reward, next state, new value). -/
theorem C1_learn_update (qa : QLearningAgent) (reward : ℚ) (ls la : String)
    (hls : qa.last_state = some ls) (hls' : ls ≠ "")
    (hla : qa.last_action = some la) (hla' : la ≠ "")
    (hact : qa.available_actions ≠ []) :
    ∃ qa', learnQ qa reward = some qa' ∧
      lookupD qa'.q_table (ls, la) = specNewQ qa reward ls la ∧
      qa'.experience = qa.experience ++
        [{ state := ls, action := la, reward := reward,
           next_state := qa.current_state,
           q_value := specNewQ qa reward ls la }] :=
  learn_update_spec qa reward ls la hls hls' hla hla' hact

/-- Concrete agent for the C1 scenario: `learning_rate = 0.5`,
`discount_factor = 0.9`, `last_state = "s1"`, `last_action = "a"`, all
relevant Q-values `0`, `current_state = "s2"`. -/
def c1agent : QLearningAgent :=
  { initQLA "q" ["a", "b"] (1/2) (9/10) (1/10) with
    current_state := some "s2"
    last_state := some "s1"
    last_action := some "a" }

theorem C1_learn_update_witness :
    ∃ qa', learnQ c1agent 10 = some qa' ∧
      lookupD qa'.q_table ("s1", "a") = 5 ∧ qa'.experience.length = 1 := by
  obtain ⟨qa', h1, h2, h3⟩ :=
    C1_learn_update c1agent 10 "s1" "a" rfl (by decide) rfl (by decide)
      (by intro h; simp [c1agent, initQLA] at h)
  refine ⟨qa', h1, ?_, ?_⟩
  · rw [h2]
    norm_num [specNewQ, specNextMax, c1agent, initQLA, lookupD, qfind, pymax]
  · rw [h3]
    simp [c1agent, initQLA]

/-- C6: `reset()` leaves any agent `Idle` with empty observation and action
histories, and does not touch learned parameters: the Q-table, the
hyperparameters and the action set of a Q-learning agent, nor the rule table
and default action of a reactive agent. -/
theorem C6_reset_clears_history (qa : QLearningAgent) (ra : ReactiveAgent) :
    (resetQ qa).state = .IDLE ∧ (resetQ qa).observations = [] ∧
    (resetQ qa).actions_taken = [] ∧
    (resetQ qa).q_table = qa.q_table ∧
    (resetQ qa).learning_rate = qa.learning_rate ∧
    (resetQ qa).discount_factor = qa.discount_factor ∧
    (resetQ qa).exploration_rate = qa.exploration_rate ∧
    (resetQ qa).available_actions = qa.available_actions ∧
    (resetR ra).state = .IDLE ∧ (resetR ra).observations = [] ∧
    (resetR ra).actions_taken = [] ∧
    (resetR ra).rules = ra.rules ∧
    (resetR ra).default_action = ra.default_action :=
  ⟨rfl, rfl, rfl, rfl, rfl, rfl, rfl, rfl, rfl, rfl, rfl, rfl, rfl⟩

/-- C10: `reset()` leaves `current_state`, `last_state`, `last_action` of a
Q-learning agent and `current_observation` of a reactive agent unchanged; so a
reactive agent decides after a reset exactly as it would have before it, and a
Q-learning agent whose `last_state`/`last_action` were set before the reset
still performs a Q-table update and appends an experience record on the first
`learn` after the reset. -/
theorem C10_reset_keeps_learning_context (qa : QLearningAgent)
    (ra : ReactiveAgent) (reward : ℚ) (ls la : String)
    (hls : qa.last_state = some ls) (hls' : ls ≠ "")
    (hla : qa.last_action = some la) (hla' : la ≠ "")
    (hact : qa.available_actions ≠ []) :
    (resetQ qa).current_state = qa.current_state ∧
    (resetQ qa).last_state = qa.last_state ∧
    (resetQ qa).last_action = qa.last_action ∧
    (resetR ra).current_observation = ra.current_observation ∧
    decideR (resetR ra) = decideR ra ∧
    (∃ qa', learnQ (resetQ qa) reward = some qa' ∧
      qa'.experience.length = qa.experience.length + 1 ∧
      lookupD qa'.q_table (ls, la) = specNewQ (resetQ qa) reward ls la) := by
  refine ⟨rfl, rfl, rfl, rfl, rfl, ?_⟩
  obtain ⟨qa', h1, h2, h3⟩ :=
    learn_update_spec (resetQ qa) reward ls la hls hls' hla hla' hact
  exact ⟨qa', h1, by simp [h3, resetQ], h2⟩

/-- Concrete post-decision Q-learning agent used to witness C10: `last_state`
and `last_action` are set and there is history to clear. -/
def c10agent : QLearningAgent :=
  { initQLA "q" ["a", "b"] with
    observations := [⟨.leaf (.pstr "s1"), 0, none⟩, ⟨.leaf (.pstr "s2"), 0, none⟩]
    current_state := some "s2"
    last_state := some "s1"
    last_action := some "a" }

/-- Concrete reactive agent used to witness C10: one rule and a pending
observation that matches it. -/
def c10reactive : ReactiveAgent :=
  { name := "r"
    state := .IDLE
    observations := [⟨.dict [("type", .pstr "hot")], 0, none⟩]
    actions_taken := []
    rules := [("hot", fun _ => { name := "cool_down", parameters := [] })]
    default_action := some { name := "wait", parameters := [] }
    current_observation := some ⟨.dict [("type", .pstr "hot")], 0, none⟩ }

theorem C10_reset_keeps_learning_context_witness :
    decideR (resetR c10reactive) = decideR c10reactive ∧
    (∃ qa', learnQ (resetQ c10agent) 10 = some qa' ∧
      qa'.experience.length = c10agent.experience.length + 1 ∧
      lookupD qa'.q_table ("s1", "a") = specNewQ (resetQ c10agent) 10 "s1" "a") := by
  obtain ⟨-, -, -, -, h5, h6⟩ :=
    C10_reset_keeps_learning_context c10agent c10reactive 10 "s1" "a" rfl
      (by decide) rfl (by decide) (by intro h; simp [c10agent, initQLA] at h)
  exact ⟨h5, h6⟩

/-- Frame fact: a fold of perceives never touches `last_action`, the Q-table
or the experience log. -/
theorem foldl_perceive_frame (obss : List Observation) (qa : QLearningAgent) :
    (obss.foldl perceiveQ qa).last_action = qa.last_action ∧
    (obss.foldl perceiveQ qa).q_table = qa.q_table ∧
    (obss.foldl perceiveQ qa).experience = qa.experience := by
  induction obss generalizing qa with
  | nil => exact ⟨rfl, rfl, rfl⟩
  | cons o os ih => exact ih (perceiveQ qa o)

/-- C5 (amended): `learn(reward)` is a silent no-op (table, log and whole
agent unchanged, no exception) whenever `last_state` or `last_action` is
falsy, which is the case whenever no action has been taken since
*construction*; in particular any sequence of perceives with no `decide`
leaves `last_action` unset, so a subsequent `learn` keeps the Q-table and the
experience log empty.  (`reset()` does *not* clear `last_state`/`last_action`,
so "no action since the last reset" does not imply the no-op — see the
counterexample.) -/
theorem C5_learn_noop_guard (qa : QLearningAgent) (reward : ℚ)
    (obss : List Observation) (name : String) (actions : List String)
    (lr df er : ℚ)
    (h : truthyOpt qa.last_state = false ∨ truthyOpt qa.last_action = false) :
    learnQ qa reward = some qa ∧
    (obss.foldl perceiveQ (initQLA name actions lr df er)).last_action = none ∧
    learnQ (obss.foldl perceiveQ (initQLA name actions lr df er)) reward =
      some (obss.foldl perceiveQ (initQLA name actions lr df er)) ∧
    (obss.foldl perceiveQ (initQLA name actions lr df er)).q_table = [] ∧
    (obss.foldl perceiveQ (initQLA name actions lr df er)).experience = [] := by
  obtain ⟨hla, htab, hexp⟩ :=
    foldl_perceive_frame obss (initQLA name actions lr df er)
  refine ⟨?_, hla, ?_, htab, hexp⟩
  · unfold learnQ
    rw [if_pos h]
  · unfold learnQ
    rw [if_pos (Or.inr (by rw [hla]; rfl))]

theorem C5_learn_noop_guard_witness :
    learnQ (initQLA "q" ["a", "b"]) 5 = some (initQLA "q" ["a", "b"]) ∧
    (initQLA "q" ["a", "b"]).q_table = [] ∧
    (initQLA "q" ["a", "b"]).experience = [] := by
  obtain ⟨h1, -, -, -, -⟩ :=
    C5_learn_noop_guard (initQLA "q" ["a", "b"]) 5 [] "q" ["a", "b"]
      (1/10) (9/10) (1/10) (Or.inl rfl)
  exact ⟨h1, rfl, rfl⟩

/-- C3: `run_cycle_with_feedback` calls perceive first, then learn exactly
when a reward was supplied, then decide, then act exactly when decide
returned an action (whose result is returned and which is appended to
`actions_taken`), and always finishes with the agent `Idle` — for an
arbitrary learning-agent implementation. -/
theorem C3_cycle_order {σ ρ : Type} (ops : LOps σ ρ) (st : LState σ)
    (obs : Observation) (reward : Option ℚ) :
    (runCycleWithFeedback ops st obs reward).1.state = .IDLE ∧
    (runCycleWithFeedback ops st obs reward).2.2 =
      [.evPerceive] ++
      (match reward with | some _ => [CycleEv.evLearn] | none => []) ++
      [.evDecide] ++
      (match (ops.decideF (match reward with
          | some r => ops.learnF (ops.perceiveF st.inner obs) r
          | none => ops.perceiveF st.inner obs)).2 with
        | some _ => [CycleEv.evAct] | none => []) ∧
    (runCycleWithFeedback ops st obs reward).1.actions_taken =
      st.actions_taken ++
      (match (ops.decideF (match reward with
          | some r => ops.learnF (ops.perceiveF st.inner obs) r
          | none => ops.perceiveF st.inner obs)).2 with
        | some a => [a] | none => []) := by
  unfold runCycleWithFeedback
  cases reward with
  | none =>
    cases hd : (ops.decideF (ops.perceiveF st.inner obs)).2 with
    | none => simp [hd]
    | some a => simp [hd]
  | some r =>
    cases hd : (ops.decideF (ops.learnF (ops.perceiveF st.inner obs) r)).2 with
    | none => simp [hd]
    | some a => simp [hd]

/-- C9: `decide` returns `None` and leaves the agent untouched not only when
no state was ever perceived but also when `current_state` is the empty
string; in particular perceiving an observation whose payload renders to `""`
leaves `decide` returning `None` even though a perceive has occurred. -/
theorem C9_decide_empty_state (qa : QLearningAgent) (src : RSrc)
    (o : Observation)
    (h : qa.current_state = none ∨ qa.current_state = some "")
    (ho : stateFromObservation o = "") :
    decideQ qa src = some (none, qa, src) ∧
    decideQ (perceiveQ qa o) src = some (none, perceiveQ qa o, src) ∧
    (perceiveQ qa o).observations ≠ [] := by
  refine ⟨?_, ?_, by simp [perceiveQ]⟩
  · rcases h with h | h
    · unfold decideQ
      rw [h]
    · unfold decideQ
      rw [h]
      simp
  · show decideQ { qa with
      observations := qa.observations ++ [o]
      last_state := qa.current_state
      current_state := some (stateFromObservation o) } src = _
    unfold decideQ
    simp [ho, perceiveQ]

theorem C9_decide_empty_state_witness :
    decideQ (initQLA "q" ["a", "b"]) ⟨fun _ => 1/2, fun _ => 0, 0, 0⟩ =
      some (none, initQLA "q" ["a", "b"], ⟨fun _ => 1/2, fun _ => 0, 0, 0⟩) ∧
    decideQ (perceiveQ (initQLA "q" ["a", "b"]) ⟨.leaf (.pstr ""), 0, none⟩)
        ⟨fun _ => 1/2, fun _ => 0, 0, 0⟩ =
      some (none,
        perceiveQ (initQLA "q" ["a", "b"]) ⟨.leaf (.pstr ""), 0, none⟩,
        ⟨fun _ => 1/2, fun _ => 0, 0, 0⟩) := by
  obtain ⟨h1, h2, -⟩ :=
    C9_decide_empty_state (initQLA "q" ["a", "b"])
      ⟨fun _ => 1/2, fun _ => 0, 0, 0⟩ ⟨.leaf (.pstr ""), 0, none⟩
      (Or.inl rfl) rfl
  exact ⟨h1, h2⟩

/-- C4: `ReactiveAgent.decide` follows the strict short-circuiting precedence
chain: no observation → default action; dict payload with a `type` value
matching a registered rule key → exactly that rule applied to the full
payload; otherwise a rule keyed by the string rendering of the whole payload,
if registered, applied to the payload; otherwise the default action. -/
theorem C4_reactive_precedence (ra : ReactiveAgent) :
    (ra.current_observation = none → decideR ra = ra.default_action) ∧
    (∀ o l s f, ra.current_observation = some o → o.data = .dict l →
      dictGet l "type" = some (.pstr s) → lookupRule ra.rules s = some f →
      decideR ra = some (f o.data)) ∧
    (∀ o g, ra.current_observation = some o →
      (∀ l s, o.data = .dict l → dictGet l "type" = some (.pstr s) →
        lookupRule ra.rules s = none) →
      lookupRule ra.rules (strPyVal o.data) = some g →
      decideR ra = some (g o.data)) ∧
    (∀ o, ra.current_observation = some o →
      (∀ l s, o.data = .dict l → dictGet l "type" = some (.pstr s) →
        lookupRule ra.rules s = none) →
      lookupRule ra.rules (strPyVal o.data) = none →
      decideR ra = ra.default_action) := by
  refine ⟨?_, ?_, ?_, ?_⟩
  · intro h
    simp [decideR, h]
  · intro o l s f ho hd ht hr
    simp [decideR, ho, hd, ht, hr]
  · intro o g ho htype hr
    cases hd : o.data with
    | leaf v =>
      rw [hd] at hr
      simp [decideR, ho, hd, hr]
    | dict l =>
      rw [hd] at hr
      cases ht : dictGet l "type" with
      | none => simp [decideR, ho, hd, ht, hr]
      | some v =>
        cases v with
        | pstr s => simp [decideR, ho, hd, ht, hr, htype l s hd ht]
        | pint n => simp [decideR, ho, hd, ht, hr]
  · intro o ho htype hr
    cases hd : o.data with
    | leaf v =>
      rw [hd] at hr
      simp [decideR, ho, hd, hr]
    | dict l =>
      rw [hd] at hr
      cases ht : dictGet l "type" with
      | none => simp [decideR, ho, hd, ht, hr]
      | some v =>
        cases v with
        | pstr s => simp [decideR, ho, hd, ht, hr, htype l s hd ht]
        | pint n => simp [decideR, ho, hd, ht, hr]

/-- Reactive agent witnessing C4: a `type`-keyed rule, a competing rule keyed
by the payload rendering, and a default action. -/
def c4reactive : ReactiveAgent :=
  { name := "r"
    state := .IDLE
    observations := []
    actions_taken := []
    rules :=
      [("hot", fun _ => { name := "cool_down", parameters := [] }),
       (strPyVal (.dict [("type", .pstr "hot"), ("temperature", .pint 30)]),
        fun _ => { name := "never", parameters := [] })]
    default_action := some { name := "wait", parameters := [] }
    current_observation :=
      some ⟨.dict [("type", .pstr "hot"), ("temperature", .pint 30)], 0, none⟩ }

theorem C4_reactive_precedence_witness :
    decideR c4reactive =
      some { name := "cool_down", parameters := [] } := by
  exact (C4_reactive_precedence c4reactive).2.1
    ⟨.dict [("type", .pstr "hot"), ("temperature", .pint 30)], 0, none⟩
    [("type", .pstr "hot"), ("temperature", .pint 30)] "hot"
    (fun _ => { name := "cool_down", parameters := [] })
    rfl rfl rfl rfl

/-- Helper: on a list with pairwise-distinct keys, `sorted` is strictly
sorted by key. -/
theorem sortItems_strict (l : List (String × PyLeaf))
    (hnd : (l.map Prod.fst).Nodup) : List.Sorted keyLt (sortItems l) := by
  have hs : List.Sorted keyLe (sortItems l) := List.sorted_insertionSort keyLe l
  have hperm : (sortItems l).Perm l := List.perm_insertionSort keyLe l
  have hnd' : ((sortItems l).map Prod.fst).Nodup :=
    ((hperm.map Prod.fst).nodup_iff).mpr hnd
  have hne : (sortItems l).Pairwise fun p q => p.1 ≠ q.1 :=
    List.pairwise_map.mp hnd'
  exact (hs.and hne).imp fun h => lt_of_le_of_ne h.1 h.2

/-- C7: the state key is deterministic — a dict payload canonicalises to the
text rendering of its key-sorted item list, so two dicts with the same
contents (in any order) produce the identical state key; a non-dict payload
canonicalises to its direct text rendering. -/
theorem C7_state_key (l1 l2 : List (String × PyLeaf)) (v : PyLeaf)
    (t1 t2 : ℚ) (m1 m2 : Option PyVal)
    (hperm : l1.Perm l2) (hnd : (l1.map Prod.fst).Nodup) :
    stateFromObservation ⟨.dict l1, t1, m1⟩ =
      stateFromObservation ⟨.dict l2, t2, m2⟩ ∧
    stateFromObservation ⟨.leaf v, t1, m1⟩ = strLeaf v := by
  refine ⟨?_, rfl⟩
  have hnd2 : (l2.map Prod.fst).Nodup := ((hperm.map Prod.fst).nodup_iff).mp hnd
  have hp : (sortItems l1).Perm (sortItems l2) :=
    (List.perm_insertionSort keyLe l1).trans
      (hperm.trans (List.perm_insertionSort keyLe l2).symm)
  have hsorteq : sortItems l1 = sortItems l2 :=
    List.eq_of_perm_of_sorted hp (sortItems_strict l1 hnd)
      (sortItems_strict l2 hnd2)
  show strItemList (sortItems l1) = strItemList (sortItems l2)
  rw [hsorteq]

theorem C7_state_key_witness :
    stateFromObservation ⟨.dict [("x", .pint 1), ("y", .pint 2)], 0, none⟩ =
      stateFromObservation ⟨.dict [("y", .pint 2), ("x", .pint 1)], 0, none⟩ :=
  (C7_state_key [("x", .pint 1), ("y", .pint 2)]
    [("y", .pint 2), ("x", .pint 1)] (.pint 0) 0 0 none none
    (List.Perm.swap ("y", PyLeaf.pint 2) ("x", PyLeaf.pint 1) [])
    (by decide)).1

theorem foldl_min_mem (x : ℚ) (xs : List ℚ) :
    xs.foldl min x = x ∨ xs.foldl min x ∈ xs := by
  induction xs generalizing x with
  | nil => left; rfl
  | cons y ys ih =>
    rcases ih (min x y) with h | h
    · rcases min_choice x y with hm | hm
      · left; rw [List.foldl, h, hm]
      · right; rw [List.foldl, h, hm]; exact List.mem_cons_self _ _
    · right; exact List.mem_cons_of_mem _ h

theorem pymin_mem {l : List ℚ} {m : ℚ} (h : pymin l = some m) : m ∈ l := by
  cases l with
  | nil => simp [pymin] at h
  | cons x xs =>
    unfold pymin at h
    have hm := Option.some.inj h
    subst hm
    rcases foldl_min_mem x xs with h' | h'
    · rw [h']; exact List.mem_cons_self _ _
    · exact List.mem_cons_of_mem _ h'

theorem zip_self_map (l : List α) (f : α → β) :
    l.zip (l.map f) = l.map fun x => (x, f x) := by
  induction l with
  | nil => rfl
  | cons x xs ih =>
    simp only [List.map, List.zip_cons_cons]
    rw [ih]

theorem filter_map_fst (l : List α) (g : α → α × β) (p : α × β → Bool)
    (hg : ∀ x, (g x).1 = x) :
    ((l.map g).filter p).map Prod.fst = l.filter fun x => p (g x) := by
  induction l with
  | nil => rfl
  | cons x xs ih =>
    simp only [List.map, List.filter]
    cases hp : p (g x) with
    | true => simp only [List.map, hg x, ih]
    | false => exact ih

/-- Helper: when one action strictly dominates all others for the given
state, `_get_best_action` returns it whatever the random stream holds. -/
theorem getBestAction_dom (qa : QLearningAgent) (cs a : String) (s : RSrc)
    (hmem : a ∈ qa.available_actions)
    (hdom : ∀ b ∈ qa.available_actions, b ≠ a →
      lookupD qa.q_table (cs, b) < lookupD qa.q_table (cs, a)) :
    ∃ t s', getBestAction qa cs s = some (a, t, s') := by
  unfold getBestAction
  dsimp only
  have hvals : (qgetList qa.q_table
      (qa.available_actions.map fun x => (cs, x))).1 =
      qa.available_actions.map fun b => lookupD qa.q_table (cs, b) := by
    rw [qgetList_fst, List.map_map]
    rfl
  rw [hvals]
  by_cases hall : ∀ b ∈ qa.available_actions, b = a
  · have hv : ∀ y ∈ qa.available_actions.map fun b => lookupD qa.q_table (cs, b),
        y = lookupD qa.q_table (cs, a) := by
      intro y hy
      obtain ⟨b, hb, rfl⟩ := List.mem_map.mp hy
      rw [hall b hb]
    obtain ⟨mx, hmx⟩ := pymax_isSome
      (l := qa.available_actions.map fun b => lookupD qa.q_table (cs, b))
      (by simpa using List.ne_nil_of_mem hmem)
    obtain ⟨mn, hmn⟩ := pymin_isSome
      (l := qa.available_actions.map fun b => lookupD qa.q_table (cs, b))
      (by simpa using List.ne_nil_of_mem hmem)
    rw [hmx, hmn]
    dsimp only
    have hmx' := hv mx (pymax_spec hmx).1
    have hmn' := hv mn (pymin_mem hmn)
    rw [if_pos (by rw [hmx', hmn'])]
    obtain ⟨x, s', hch⟩ := pyChoice_isSome (List.ne_nil_of_mem hmem) s
    rw [hch]
    have hx : x = a := hall x (pyChoice_mem hch)
    exact ⟨_, s', by rw [hx]; rfl⟩
  · push_neg at hall
    obtain ⟨b0, hb0, hb0ne⟩ := hall
    have hub : ∀ y ∈ qa.available_actions.map fun b => lookupD qa.q_table (cs, b),
        y ≤ lookupD qa.q_table (cs, a) := by
      intro y hy
      obtain ⟨b, hb, rfl⟩ := List.mem_map.mp hy
      by_cases hba : b = a
      · rw [hba]
      · exact le_of_lt (hdom b hb hba)
    have hmx : pymax (qa.available_actions.map fun b => lookupD qa.q_table (cs, b))
        = some (lookupD qa.q_table (cs, a)) :=
      pymax_eq_of_mem_of_le (List.mem_map_of_mem _ hmem) hub
    obtain ⟨mn, hmn⟩ := pymin_isSome
      (l := qa.available_actions.map fun b => lookupD qa.q_table (cs, b))
      (by simpa using List.ne_nil_of_mem hmem)
    rw [hmx, hmn]
    dsimp only
    have hmnlt : mn < lookupD qa.q_table (cs, a) :=
      lt_of_le_of_lt (pymin_le hmn _ (List.mem_map_of_mem _ hb0))
        (hdom b0 hb0 hb0ne)
    rw [if_neg (by intro h; exact absurd h.symm (ne_of_lt hmnlt))]
    have hbest : ((qa.available_actions.zip
        (qa.available_actions.map fun b => lookupD qa.q_table (cs, b))).filter
          fun p => p.2 = lookupD qa.q_table (cs, a)).map Prod.fst =
        qa.available_actions.filter
          fun b => decide (lookupD qa.q_table (cs, b) = lookupD qa.q_table (cs, a)) := by
      rw [zip_self_map]
      exact filter_map_fst _ _ _ fun x => rfl
    rw [hbest]
    have hamem : a ∈ qa.available_actions.filter
        fun b => decide (lookupD qa.q_table (cs, b) = lookupD qa.q_table (cs, a)) :=
      List.mem_filter.mpr ⟨hmem, by simp⟩
    obtain ⟨x, s', hch⟩ := pyChoice_isSome (List.ne_nil_of_mem hamem) s
    rw [hch]
    have hx := List.mem_filter.mp (pyChoice_mem hch)
    have hxa : x = a := by
      by_contra hne
      exact absurd (of_decide_eq_true hx.2)
        (ne_of_lt (hdom x hx.1 hne))
    exact ⟨_, s', by rw [hxa]; rfl⟩

/-- C8: with `exploration_rate = 0` and a unique strict maximiser among the
configured actions for the perceived state, `decide()` returns that action
for every random stream (so any two runs agree), with
`confidence = 1 - exploration_rate`. -/
theorem C8_greedy_deterministic (qa : QLearningAgent) (src : RSrc)
    (cs a : String)
    (hcs : qa.current_state = some cs) (hcs' : cs ≠ "")
    (heps : qa.exploration_rate = 0)
    (hf : 0 ≤ src.floats src.fi)
    (hmem : a ∈ qa.available_actions)
    (hdom : ∀ b ∈ qa.available_actions, b ≠ a →
      lookupD qa.q_table (cs, b) < lookupD qa.q_table (cs, a)) :
    ∃ act qa' src', decideQ qa src = some (some act, qa', src') ∧
      act.name = a ∧ act.confidence = 1 - qa.exploration_rate := by
  unfold decideQ
  rw [hcs]
  dsimp only
  rw [if_neg hcs']
  rw [show (nextFloat src).1 = src.floats src.fi from rfl, heps]
  rw [if_neg (not_lt.mpr hf)]
  obtain ⟨t, s', hb⟩ := getBestAction_dom qa cs a (nextFloat src).2 hmem hdom
  rw [hb]
  exact ⟨_, _, _, rfl, rfl, rfl⟩

/-- Concrete agent witnessing C8: action `"b"` strictly dominates in state
`"s"`, exploration is off. -/
def c8agent : QLearningAgent :=
  { initQLA "q" ["a", "b"] (1/10) (9/10) 0 with
    current_state := some "s"
    q_table := [(("s", "a"), 1), (("s", "b"), 2)] }

theorem C8_greedy_deterministic_witness :
    0 ≤ (1 : ℚ) / 2 ∧
    ∃ act qa' src', decideQ c8agent ⟨fun _ => 1/2, fun _ => 7, 0, 0⟩ =
        some (some act, qa', src') ∧
      act.name = "b" ∧ act.confidence = 1 - c8agent.exploration_rate := by
  refine ⟨by norm_num, ?_⟩
  exact C8_greedy_deterministic c8agent ⟨fun _ => 1/2, fun _ => 7, 0, 0⟩
    "s" "b" rfl (by decide) rfl (by norm_num) (by decide) (by decide)

/-! ### Concrete runs for the Q-learning scenario -/

/-- Observation carrying the bare string `"s1"`. -/
def obsS1 : Observation := ⟨.leaf (.pstr "s1"), 0, none⟩

/-- Observation carrying the bare string `"s2"`. -/
def obsS2 : Observation := ⟨.leaf (.pstr "s2"), 0, none⟩

/-- A concrete random stream: `random()` always `0.5` (so never explores at
the default rate), `choice` always picks index `0`. -/
def src0 : RSrc := ⟨fun _ => 1/2, fun _ => 0, 0, 0⟩

/-- The scenario agent right after perceiving `"s1"`. -/
def c2a1 : QLearningAgent := perceiveQ (initQLA "q" ["a", "b"]) obsS1

/-- Q-table materialised by the greedy read of state `"s1"`. -/
def c2t1 : QTable := [(("s1", "a"), 0), (("s1", "b"), 0)]

/-- The scenario agent right after `decide()` picked `"a"`. -/
def c2a2 : QLearningAgent := { c2a1 with q_table := c2t1, last_action := some "a" }

/-- The scenario agent after `perceive("s2"); learn(10.0)`: one learned value
and three default entries materialised by reads. -/
def c2a4 : QLearningAgent :=
  { c2a2 with
    observations := c2a2.observations ++ [obsS2]
    last_state := some "s1"
    current_state := some "s2"
    q_table := [(("s1", "a"), 1), (("s1", "b"), 0),
                (("s2", "a"), 0), (("s2", "b"), 0)]
    experience := [{ state := "s1", action := "a", reward := 10,
                     next_state := some "s2", q_value := 1 }] }

theorem C2_counterexample :
    decideQ c2a1 src0 =
      some (some ⟨"a", [], 1 - 1/10⟩, c2a2, ⟨fun _ => 1/2, fun _ => 0, 1, 1⟩) ∧
    learnQ (perceiveQ c2a2 obsS2) 10 = some c2a4 ∧
    c2a4.q_table.length = 4 ∧ ¬ c2a4.q_table.length = 1 := by
  refine ⟨?_, ?_, rfl, by norm_num [c2a4]⟩
  · simp [decideQ, c2a1, c2a2, c2t1, perceiveQ, initQLA, obsS1,
      stateFromObservation, strLeaf, nextFloat, src0, getBestAction,
      qgetList, qget, qfind, pymax, pymin, pyChoice, List.foldl,
      show ¬((1 : ℚ)/2 < 1/10) from by norm_num]
    norm_num
  · simp [learnQ, c2a4, c2a2, c2a1, c2t1, perceiveQ, initQLA,
      obsS1, obsS2, stateFromObservation, strLeaf, truthyOpt,
      qgetList, qget, qfind, pymax, pymin, qset, List.foldl]

/-- The scenario agent after `perceive("s2"); learn(10.0)`, parameterised by
the decided action and the final table. -/
def c2final (an : String) (t : QTable) : QLearningAgent :=
  { name := "q", state := .IDLE, observations := [obsS1, obsS2],
    actions_taken := [], learning_rate := 1/10,
    experience := [{ state := "s1", action := an, reward := 10,
                     next_state := some "s2", q_value := 1 }],
    available_actions := ["a", "b"], discount_factor := 9/10,
    exploration_rate := 1/10, q_table := t, current_state := some "s2",
    last_state := some "s1", last_action := some an, last_reward := 0 }

/-- C2 (amended): for the scenario `actions=["a","b"]`; perceive `"s1"`;
`decide()`; perceive `"s2"`; `learn(10.0)` — under every random stream — the
experience log ends with length 1 and the Q-table's unique entry with a
non-default value is keyed `(s1, last_action)` (value `learning_rate * 10 =
1`); but the table does not end with exactly one entry: reads materialise
default-`0.0` entries, leaving 3 (explore branch) or 4 (exploit branch) keys
in total. -/
theorem C2_scenario_amended (src : RSrc) :
    ∃ act qa2 src2 qa4,
      decideQ (perceiveQ (initQLA "q" ["a", "b"]) obsS1) src =
        some (some act, qa2, src2) ∧
      qa2.last_action = some act.name ∧
      (act.name = "a" ∨ act.name = "b") ∧
      learnQ (perceiveQ qa2 obsS2) 10 = some qa4 ∧
      qa4.experience.length = 1 ∧
      qa4.q_table.filter (fun e => decide (e.2 ≠ 0)) = [(("s1", act.name), 1)] ∧
      (qa4.q_table.length = 3 ∨ qa4.q_table.length = 4) := by
  show ∃ act qa2 src2 qa4, decideQ c2a1 src = some (some act, qa2, src2) ∧ _
  by_cases hexp : src.floats src.fi < 1/10
  · rcases Nat.mod_two_eq_zero_or_one (src.choices src.ci) with hmod | hmod
    · refine ⟨⟨"a", [], 1 - 1/10⟩, { c2a1 with last_action := some "a" },
        { src with fi := src.fi + 1, ci := src.ci + 1 },
        c2final "a" [(("s1", "a"), 1), (("s2", "a"), 0), (("s2", "b"), 0)],
        ?_, rfl, Or.inl rfl, ?_, rfl, by decide, Or.inl rfl⟩
      · simp [decideQ, c2a1, perceiveQ, initQLA, obsS1, stateFromObservation,
          strLeaf, nextFloat, pyChoice, hexp, hmod]
        intro h
        exact absurd hexp (not_lt.mpr (by simpa using h))
      · simp [learnQ, c2final, c2a1, perceiveQ, initQLA, obsS1, obsS2,
          stateFromObservation, strLeaf, truthyOpt, qgetList, qget, qfind,
          pymax, qset, List.foldl]
    · refine ⟨⟨"b", [], 1 - 1/10⟩, { c2a1 with last_action := some "b" },
        { src with fi := src.fi + 1, ci := src.ci + 1 },
        c2final "b" [(("s1", "b"), 1), (("s2", "a"), 0), (("s2", "b"), 0)],
        ?_, rfl, Or.inr rfl, ?_, rfl, by decide, Or.inl rfl⟩
      · simp [decideQ, c2a1, perceiveQ, initQLA, obsS1, stateFromObservation,
          strLeaf, nextFloat, pyChoice, hexp, hmod]
        intro h
        exact absurd hexp (not_lt.mpr (by simpa using h))
      · simp [learnQ, c2final, c2a1, perceiveQ, initQLA, obsS1, obsS2,
          stateFromObservation, strLeaf, truthyOpt, qgetList, qget, qfind,
          pymax, qset, List.foldl]
  · rcases Nat.mod_two_eq_zero_or_one (src.choices src.ci) with hmod | hmod
    · refine ⟨⟨"a", [], 1 - 1/10⟩, { c2a1 with q_table := c2t1, last_action := some "a" },
        { src with fi := src.fi + 1, ci := src.ci + 1 },
        c2final "a" [(("s1", "a"), 1), (("s1", "b"), 0),
                     (("s2", "a"), 0), (("s2", "b"), 0)],
        ?_, rfl, Or.inl rfl, ?_, rfl, by decide, Or.inr rfl⟩
      · simp [decideQ, c2a1, c2t1, perceiveQ, initQLA, obsS1,
          stateFromObservation, strLeaf, nextFloat, getBestAction, qgetList,
          qget, qfind, pymax, pymin, pyChoice, List.foldl, hexp, hmod]
        simpa using not_lt.mp hexp
      · simp [learnQ, c2final, c2a1, c2t1, perceiveQ, initQLA, obsS1, obsS2,
          stateFromObservation, strLeaf, truthyOpt, qgetList, qget, qfind,
          pymax, qset, List.foldl]
    · refine ⟨⟨"b", [], 1 - 1/10⟩, { c2a1 with q_table := c2t1, last_action := some "b" },
        { src with fi := src.fi + 1, ci := src.ci + 1 },
        c2final "b" [(("s1", "a"), 0), (("s1", "b"), 1),
                     (("s2", "a"), 0), (("s2", "b"), 0)],
        ?_, rfl, Or.inr rfl, ?_, rfl, by decide, Or.inr rfl⟩
      · simp [decideQ, c2a1, c2t1, perceiveQ, initQLA, obsS1,
          stateFromObservation, strLeaf, nextFloat, getBestAction, qgetList,
          qget, qfind, pymax, pymin, pyChoice, List.foldl, hexp, hmod]
        simpa using not_lt.mp hexp
      · simp [learnQ, c2final, c2a1, c2t1, perceiveQ, initQLA, obsS1, obsS2,
          stateFromObservation, strLeaf, truthyOpt, qgetList, qget, qfind,
          pymax, qset, List.foldl]

/-- The post-reset scenario agent after its first `learn(10.0)`. -/
def c5learned : QLearningAgent :=
  { name := "q", state := .IDLE, observations := [], actions_taken := [],
    learning_rate := 1/10,
    experience := [{ state := "s1", action := "a", reward := 10,
                     next_state := some "s2", q_value := 1 }],
    available_actions := ["a", "b"], discount_factor := 9/10,
    exploration_rate := 1/10,
    q_table := [(("s1", "a"), 1), (("s1", "b"), 0),
                (("s2", "a"), 0), (("s2", "b"), 0)],
    current_state := some "s2", last_state := some "s1",
    last_action := some "a", last_reward := 0 }

theorem C5_counterexample :
    (resetQ (perceiveQ c2a2 obsS2)).actions_taken = [] ∧
    learnQ (resetQ (perceiveQ c2a2 obsS2)) 10 = some c5learned ∧
    ¬ c5learned.q_table = (resetQ (perceiveQ c2a2 obsS2)).q_table ∧
    c5learned.experience.length =
      (resetQ (perceiveQ c2a2 obsS2)).experience.length + 1 := by
  refine ⟨rfl, ?_, by decide, rfl⟩
  simp [learnQ, c5learned, c2a2, c2a1, c2t1, perceiveQ, resetQ, initQLA,
    obsS1, obsS2, stateFromObservation, strLeaf, truthyOpt, qgetList, qget,
    qfind, pymax, qset, List.foldl]

end AgentPoc
